import Mathlib

/-
Shallow embedding of `src/proof/supernova.rs` (lurk-rs SuperNova proving layer).

The embedded functions mirror the Rust source.  Rust panics (slice index out
of bounds, `Option::unwrap` on `None`, usize subtraction overflow, failed
`assert!`, `unimplemented!()`) and returned errors are both modelled as the
`Except` error channel, with distinct constructors so the two failure styles
stay distinguishable.  External collaborators that live outside `src/`
(the `Lang` registry, `MultiFrame` compilation and circuit synthesis, the
folding-scheme library) are modelled from the spec, as marked on each
definition.
-/

namespace Lurk

/-- Failure taxonomy.  The first five are Rust panics; `store` models a
`ProofError` returned by the store encoding via `?`; `scheme` models a
folding-scheme level failure (unwrapped in the source, hence a panic);
`emptyTrace` is the explicit empty-trace error kind named by the spec's
error taxonomy (no code path in the source produces it). -/
inductive Err where
  | oobIndex : Err
  | unwrapNone : Err
  | usizeUnderflow : Err
  | assertFail : Err
  | notImpl : Err
  | emptyTrace : Err
  | store : Nat → Err
  | scheme : Nat → Err
deriving DecidableEq

/-- Opaque coprocessor fingerprint (`ZExprPtr` in the source). -/
abbrev ZPtr := Nat

/-- Lane tag of a frame: the primary Lurk interpreter lane, or an auxiliary
coprocessor lane identified by its fingerprint (`Meta` in `crate::eval`). -/
inductive Meta where
  | Lurk : Meta
  | Coprocessor : ZPtr → Meta
deriving DecidableEq

/-- One atomic trace unit.  The input and output states (`IO<F>` in the
source) are opaque identifiers; the store encoding to a field vector is a
separate function argument where needed. -/
structure Frame where
  input : Nat
  output : Nat
  meta : Meta
deriving DecidableEq

/-- Modelled from the spec: the lane registry `Lang` (crate::eval::lang, not
under `src/`) maps an opaque per-computation fingerprint to a lane index and
reports the total auxiliary-lane count.  Modelled as the ordered list of
registered fingerprints. -/
structure Lang where
  coprocessors : List ZPtr
deriving DecidableEq

/-- Modelled from the spec: `Lang::get_index` returns the lane index of a
registered fingerprint, `none` for an unknown one. -/
def Lang.get_index (l : Lang) (z : ZPtr) : Option Nat :=
  l.coprocessors.findIdx? (fun w => w == z)

/-- Modelled from the spec: `Lang::coprocessor_count`. -/
def Lang.coprocessor_count (l : Lang) : Nat :=
  l.coprocessors.length

/-- Modelled from the spec: `Lang::get_coprocessor_z_ptr` returns the
fingerprint registered at a lane index, `none` when out of range. -/
def Lang.get_coprocessor_z_ptr (l : Lang) (i : Nat) : Option ZPtr :=
  l.coprocessors.get? i

/-- Folding configuration: `Lang` plus reduction count, in either IVC
(uniform) or NIVC (non-uniform) mode. -/
inductive FoldingConfig where
  | IVC : Lang → Nat → FoldingConfig
  | NIVC : Lang → Nat → FoldingConfig
deriving DecidableEq

/-- `FoldingConfig::new_ivc`. -/
def FoldingConfig.new_ivc (lang : Lang) (reduction_count : Nat) : FoldingConfig :=
  .IVC lang reduction_count

/-- `FoldingConfig::new_nivc`. -/
def FoldingConfig.new_nivc (lang : Lang) (reduction_count : Nat) : FoldingConfig :=
  .NIVC lang reduction_count

/-- `FoldingConfig::circuit_index`: IVC always answers 0; NIVC answers 0 for
the Lurk lane and `lang.get_index(z_ptr).unwrap() + 1` for a coprocessor lane,
where the `unwrap` panics on an unknown fingerprint. -/
def FoldingConfig.circuit_index : FoldingConfig → Meta → Except Err Nat
  | .IVC _ _, _ => .ok 0
  | .NIVC _ _, .Lurk => .ok 0
  | .NIVC lang _, .Coprocessor z =>
      match lang.get_index z with
      | some i => .ok (i + 1)
      | none => .error .unwrapNone

/-- `FoldingConfig::num_circuits`: 1 in IVC mode, `1 + coprocessor_count` in
NIVC mode. -/
def FoldingConfig.num_circuits : FoldingConfig → Nat
  | .IVC _ _ => 1
  | .NIVC lang _ => 1 + lang.coprocessor_count

/-- `FoldingConfig::reduction_count`. -/
def FoldingConfig.reduction_count : FoldingConfig → Nat
  | .IVC _ rc => rc
  | .NIVC _ rc => rc

/-- Fuel-indexed chunking helper: splits a list into consecutive chunks of
size `c` (each chunk takes one head element plus `c - 1` more).  The fuel is
always instantiated with the list length, which suffices because every
recursive call consumes at least one element. -/
def chunkGo (c : Nat) : Nat → List Frame → List (List Frame)
  | _, [] => []
  | 0, l => [l]
  | fuel + 1, x :: xs => (x :: xs.take (c - 1)) :: chunkGo c fuel (xs.drop (c - 1))

/-- Split a list into consecutive chunks of size `c` (last chunk may be
shorter). -/
def chunkList (c : Nat) (l : List Frame) : List (List Frame) :=
  chunkGo c l.length l

/-- One compiled circuit instance covering a batch of same-lane frames
(`MultiFrame` in `crate::circuit`, external to `src/`).  Only the fields this
layer reads are modelled: the shared folding configuration, the lane tag, and
the frames the instance covers. -/
structure MultiFrame where
  folding_config : FoldingConfig
  meta : Meta
  frames : List Frame
deriving DecidableEq

/-- Modelled from the spec: `MultiFrame::from_frames` (crate::circuit, not
under `src/`) compiles a batch of same-lane frames, given a size cap, into
one or more circuit instances — chunks no larger than the cap, the final
chunk padded internally (padding does not change the chunk's covered
frames here). -/
def MultiFrame.from_frames (count : Nat) (frames : List Frame)
    (folding_config : FoldingConfig) : List MultiFrame :=
  (chunkList count frames).map (fun ch =>
    { folding_config := folding_config
      meta := match ch.head? with
              | some f => f.meta
              | none => Meta.Lurk
      frames := ch })

/-- Modelled from the spec: `MultiFrame::blank` builds a placeholder instance
with no real frame data, used only to fix circuit shape. -/
def MultiFrame.blank (folding_config : FoldingConfig) (meta : Meta) : MultiFrame :=
  { folding_config := folding_config, meta := meta, frames := [] }

/-- `MultiFrame::circuit_index` (defined in `src/proof/supernova.rs`):
delegates to the folding configuration at this instance's lane tag. -/
def MultiFrame.circuit_index (mf : MultiFrame) : Except Err Nat :=
  mf.folding_config.circuit_index mf.meta

/-- One step of an NIVC computation: a compiled circuit instance plus an
optional forward reference to the next step's circuit instance. -/
structure NIVCStep where
  multiframe : MultiFrame
  next : Option MultiFrame
deriving DecidableEq

/-- `NIVCStep::new`: wrap a `MultiFrame` with no forward reference. -/
def NIVCStep.new (multiframe : MultiFrame) : NIVCStep :=
  { multiframe := multiframe, next := none }

/-- `NIVCStep::blank`. -/
def NIVCStep.blank (folding_config : FoldingConfig) (meta : Meta) : NIVCStep :=
  NIVCStep.new (MultiFrame.blank folding_config meta)

/-- `NIVCStep::circuit_index` (the `StepCircuit` impl): delegates to the
wrapped `MultiFrame`. -/
def NIVCStep.circuit_index (s : NIVCStep) : Except Err Nat :=
  s.multiframe.circuit_index

/-- `NIVCStep::synthesize` (the `StepCircuit` impl).  The external
`MultiFrame` synthesis (crate::circuit, not under `src/`) is taken as the
function argument `extSynth`; the step then computes `next_pc` from its
forward reference — the successor's circuit index (whose `unwrap` inside
`circuit_index` can panic on an unknown lane), or 0 when the reference is
absent — and returns `(Some next_pc, output)`. -/
def NIVCStep.synthesize (extSynth : MultiFrame → List Nat → Except Err (List Nat))
    (s : NIVCStep) (_pc : Option Nat) (z : List Nat) :
    Except Err (Option Nat × List Nat) := do
  let output ← extSynth s.multiframe z
  let next_pc ← match s.next with
    | some x => x.circuit_index
    | none => Except.ok 0
  return (some next_pc, output)

/-- Loop body of `NIVCSteps::from_frames`: the accumulator carries the steps
emitted so far, the lane tag of the pending batch, and the pending batch
itself.  On a matching tag the frame joins the pending batch; on a lane
change the closing batch (with the triggering frame appended when the
closing lane is `Meta::Lurk`) is compiled — cap `count` for the Lurk lane,
cap 1 for a coprocessor lane — and a fresh pending batch starts with the
triggering frame. -/
def segBody (count : Nat) (folding_config : FoldingConfig)
    (acc : List NIVCStep × Meta × List Frame) (frame : Frame) :
    List NIVCStep × Meta × List Frame :=
  let steps := acc.1
  let last_meta := acc.2.1
  let consecutive_frames := acc.2.2
  if frame.meta = last_meta then
    (steps, last_meta, consecutive_frames ++ [frame])
  else
    let closing :=
      if last_meta = Meta.Lurk then consecutive_frames ++ [frame]
      else consecutive_frames
    let new_steps :=
      (MultiFrame.from_frames (if last_meta = Meta.Lurk then count else 1)
        closing folding_config).map NIVCStep.new
    (steps ++ new_steps, frame.meta, [frame])

/-- The segmentation phase of `NIVCSteps::from_frames`: the frame scan
followed by compiling the trailing pending batch (compiled with cap `count`
regardless of its lane, as in the source). -/
def NIVCSteps.segment (count : Nat) (firstMeta : Meta) (frames : List Frame)
    (folding_config : FoldingConfig) : List NIVCStep :=
  let r := frames.foldl (segBody count folding_config) ([], firstMeta, [])
  if r.2.2.isEmpty then r.1
  else r.1 ++ (MultiFrame.from_frames count r.2.2 folding_config).map NIVCStep.new

/-- Successor-linking pass of `NIVCSteps::from_frames`: for `i` in
`0..bound`, set `steps[i].next` to `steps[i + 1].multiframe`.  `all` is the
whole step list (successors are read from it), `i` the index of the head of
`l` within `all`. -/
def linkGo (all : List NIVCStep) (bound : Nat) : Nat → List NIVCStep → List NIVCStep
  | _, [] => []
  | i, s :: rest =>
      (if i < bound then
         match all.get? (i + 1) with
         | some s2 => { s with next := some s2.multiframe }
         | none => s
       else s) :: linkGo all bound (i + 1) rest

/-- All steps of an NIVC computation. -/
structure NIVCSteps where
  steps : List NIVCStep
deriving DecidableEq

/-- `NIVCSteps::num_steps`. -/
def NIVCSteps.num_steps (s : NIVCSteps) : Nat :=
  s.steps.length

/-- `NIVCSteps::from_frames`.  Reading `frames[0].meta` panics out of bounds
on an empty trace.  After segmentation the linking pass runs
`for i in 0..(penultimate - 1)` with `penultimate = steps.len() - 1` on
`usize`: when exactly one step was produced, `penultimate - 1` is `0 - 1`,
which aborts (subtraction overflow panic in debug builds; in release builds
the wrapped bound makes `steps[1]` panic out of bounds immediately), modelled
as the single abort `Err.usizeUnderflow`. -/
def NIVCSteps.from_frames (count : Nat) (frames : List Frame)
    (folding_config : FoldingConfig) : Except Err NIVCSteps :=
  match frames.head? with
  | none => .error .oobIndex
  | some f0 =>
      let steps := NIVCSteps.segment count f0.meta frames folding_config
      if steps.isEmpty then .ok ⟨steps⟩
      else
        let penultimate := steps.length - 1
        if penultimate = 0 then .error .usizeUnderflow
        else .ok ⟨linkGo steps (penultimate - 1) 0 steps⟩

/-- Modelled from the spec: the folding-scheme library's per-run behavior
(parameter setup, base case, fold, per-step verify — all external).  The
`payload` is the opaque content of the final `RecursiveSNARK`, which may
differ between runs because of scheme-internal randomness; `ok i` says
whether the scheme operations at step `i` (base/fold/verify, unwrapped in
the source) succeed. -/
structure SchemeOracle where
  payload : Nat
  ok : Nat → Bool

/-- Proof value: either the recursive accumulator state (opaque payload) or
the unimplemented compressed form. -/
inductive Proof where
  | Recursive : Nat → Proof
  | Compressed : Proof
deriving DecidableEq

/-- Per-step loop of `Proof::prove_recursively`: each step's circuit index is
computed (panicking on an unknown lane), the running-claim table of size
`claimsLen` is indexed at it (out of bounds panics), and the scheme's
base/fold/verify operations at this step are unwrapped. -/
def proveLoop (claimsLen : Nat) (o : SchemeOracle) : Nat → List NIVCStep → Except Err Unit
  | _, [] => .ok ()
  | i, s :: rest => do
      let idx ← s.circuit_index
      if claimsLen ≤ idx then .error .oobIndex
      else if o.ok i then proveLoop claimsLen o (i + 1) rest
      else .error (.scheme i)

/-- `Proof::prove_recursively`: asserts the step sequence is non-empty,
builds the blank step and the running claims (one per circuit index, an
external setup — only their count matters here), eagerly indexes the claim
of step 0, then folds and verifies every step in order, wrapping the final
accumulator as `Proof::Recursive`. -/
def Proof.prove_recursively (lang : Lang) (reduction_count : Nat)
    (nivc_steps : NIVCSteps) (o : SchemeOracle) : Except Err Proof := do
  if nivc_steps.num_steps = 0 then .error .assertFail
  else
    let claimsLen := 1 + lang.coprocessor_count
    let idx0 ← match nivc_steps.steps.head? with
      | some s => s.circuit_index
      | none => .error .oobIndex
    if claimsLen ≤ idx0 then .error .oobIndex
    else do
      proveLoop claimsLen o 0 nivc_steps.steps
      let _ := reduction_count
      return .Recursive o.payload

/-- `Proof::verify`: a `Recursive` proof delegates to the external scheme
verifier (argument `snarkVerify`, applied to the opaque accumulator payload,
the claim, `z0` and the fixed secondary initial state `[0]`); the supplied
`zi` is received but not consulted; a `Compressed` proof hits
`unimplemented!()`. -/
def Proof.verify (snarkVerify : Nat → Nat → List Nat → List Nat → Except Nat Unit)
    (p : Proof) (claim : Nat) (z0 _zi : List Nat) : Except Err Bool :=
  let z0_secondary : List Nat := [0]
  match p with
  | .Recursive a =>
      match snarkVerify a claim z0 z0_secondary with
      | .ok _ => .ok true
      | .error e => .error (.scheme e)
  | .Compressed => .error .notImpl

/-- `SuperNovaProver::prove`: encodes the first frame's input and the last
frame's output (`frames[0]` panics out of bounds on an empty trace; the
store encoding `to_vector`, external to `src/`, is the argument `toVector`
and its `ProofError` propagates via `?`), builds the NIVC folding
configuration, segments the trace, and proves recursively, returning the
proof together with `z0`, `zi` and the step count. -/
def SuperNovaProver.prove (reduction_count : Nat)
    (toVector : Nat → Except Nat (List Nat)) (frames : List Frame)
    (lang : Lang) (o : SchemeOracle) :
    Except Err (Proof × List Nat × List Nat × Nat) := do
  let f0 ← match frames.head? with
    | some f => Except.ok f
    | none => Except.error Err.oobIndex
  let z0 ← (toVector f0.input).mapError Err.store
  let flast ← match frames.getLast? with
    | some f => Except.ok f
    | none => Except.error Err.unwrapNone
  let zi ← (toVector flast.output).mapError Err.store
  let folding_config := FoldingConfig.new_nivc lang reduction_count
  let nivc_steps ← NIVCSteps.from_frames reduction_count frames folding_config
  let num_steps := nivc_steps.num_steps
  let proof ← Proof.prove_recursively lang reduction_count nivc_steps o
  return (proof, z0, zi, num_steps)

/-- Concrete registry used by witness theorems: one coprocessor with
fingerprint 7. -/
def langW : Lang := ⟨[7]⟩

/-- Concrete NIVC folding configuration used by witness theorems. -/
def fcW : FoldingConfig := FoldingConfig.new_nivc langW 2

/-- Concrete step used by witness theorems: a primary-lane step whose
forward reference is a coprocessor-lane instance. -/
def stepW : NIVCStep :=
  NIVCStep.mk (MultiFrame.blank fcW Meta.Lurk)
    (some (MultiFrame.blank fcW (Meta.Coprocessor 7)))

/-- Concrete singleton-chunk circuit instance used by witness theorems:
covers the primary frame with input `k`. -/
def mfW (k : Nat) : MultiFrame :=
  ⟨FoldingConfig.new_nivc ⟨[]⟩ 1, Meta.Lurk, [⟨k, k + 1, Meta.Lurk⟩]⟩

/-- Concrete three-step linked sequence used by witness theorems: the result
of segmenting three primary frames with batch cap 1. -/
def outW : NIVCSteps :=
  ⟨[⟨mfW 0, some (mfW 1)⟩, ⟨mfW 1, none⟩, ⟨mfW 2, none⟩]⟩

/-- C1: for every folding configuration, in both uniform (IVC) and
non-uniform (NIVC) mode, `FoldingConfig::circuit_index` applied to a
primary-lane tag (`Meta::Lurk`) returns 0. -/
theorem circuit_index_primary_eq_zero (fc : FoldingConfig) :
    fc.circuit_index Meta.Lurk = Except.ok 0 := by
  cases fc <;> rfl

/-- C2: in NIVC mode, for an auxiliary lane tag `Meta::Coprocessor fp`: when
`fp` is registered in the `Lang`, `circuit_index` returns the registry index
plus 1; when `fp` is unknown, it fails (the `unwrap` of `get_index` panics)
rather than returning a value. -/
theorem circuit_index_auxiliary_nivc (lang : Lang) (rc : Nat) (fp : ZPtr) :
    (∀ i, lang.get_index fp = some i →
      (FoldingConfig.NIVC lang rc).circuit_index (Meta.Coprocessor fp) =
        Except.ok (i + 1)) ∧
    (lang.get_index fp = none →
      (FoldingConfig.NIVC lang rc).circuit_index (Meta.Coprocessor fp) =
        Except.error Err.unwrapNone) := by
  constructor
  · intro i h
    simp [FoldingConfig.circuit_index, h]
  · intro h
    simp [FoldingConfig.circuit_index, h]

/-- Witness for C2 at a concrete registry: fingerprint 9 has index 1 so its
circuit index is 2; fingerprint 3 is unknown and fails. -/
theorem circuit_index_auxiliary_nivc_witness :
    (FoldingConfig.NIVC ⟨[5, 9]⟩ 4).circuit_index (Meta.Coprocessor 9) =
      Except.ok 2 ∧
    (FoldingConfig.NIVC ⟨[5, 9]⟩ 4).circuit_index (Meta.Coprocessor 3) =
      Except.error Err.unwrapNone :=
  ⟨(circuit_index_auxiliary_nivc ⟨[5, 9]⟩ 4 9).1 1 rfl,
   (circuit_index_auxiliary_nivc ⟨[5, 9]⟩ 4 3).2 rfl⟩

/-- C7: `Proof::verify` on a `Recursive` proof delegates to the scheme's
verifier applied to the claim and `z0` (with the fixed secondary state);
the supplied `zi` never affects the outcome; and on a `Compressed` proof it
fails with the explicit not-implemented condition for every input. -/
theorem verify_delegates_and_ignores_zi
    (snarkVerify : Nat → Nat → List Nat → List Nat → Except Nat Unit)
    (a claim : Nat) (z0 zi zi' : List Nat) :
    (Proof.verify snarkVerify (Proof.Recursive a) claim z0 zi =
      match snarkVerify a claim z0 [0] with
      | Except.ok _ => Except.ok true
      | Except.error e => Except.error (Err.scheme e)) ∧
    Proof.verify snarkVerify (Proof.Recursive a) claim z0 zi =
      Proof.verify snarkVerify (Proof.Recursive a) claim z0 zi' ∧
    Proof.verify snarkVerify Proof.Compressed claim z0 zi =
      Except.error Err.notImpl :=
  ⟨rfl, rfl, rfl⟩

/-- Counterexample for C3: at the concrete empty trace, `prove` fails with
the out-of-bounds panic from indexing `frames[0]`, not with the explicit
empty-trace error kind the claim requires. -/
theorem prove_empty_trace_counterexample :
    SuperNovaProver.prove 4 (fun s => Except.ok [s]) [] ⟨[]⟩ ⟨0, fun _ => true⟩ =
      Except.error Err.oobIndex ∧
    SuperNovaProver.prove 4 (fun s => Except.ok [s]) [] ⟨[]⟩ ⟨0, fun _ => true⟩ ≠
      Except.error Err.emptyTrace := by
  refine ⟨rfl, fun h => ?_⟩
  rw [show SuperNovaProver.prove 4 (fun s => Except.ok [s]) [] ⟨[]⟩ ⟨0, fun _ => true⟩ =
      Except.error Err.oobIndex from rfl] at h
  exact Err.noConfusion (Except.error.inj h)

/-- C3 amended: calling `prove` with an empty frame sequence fails with a
low-level out-of-bounds fault (indexing `frames[0]`), not with an explicit
empty-trace error. -/
theorem prove_empty_trace_amended (rc : Nat) (toVector : Nat → Except Nat (List Nat))
    (lang : Lang) (o : SchemeOracle) :
    SuperNovaProver.prove rc toVector [] lang o = Except.error Err.oobIndex :=
  rfl

/-- C4: at the failing input — a single-lane trace short enough to segment
into one step — `from_frames` aborts in the successor-linking pass
(`penultimate - 1` underflows with `penultimate == 0`) instead of returning
the `ceil(n/c)` = 1 step the claim requires; the claim's concrete scenario
(7 primary frames, batch cap 4) does hold: 2 steps, and `prove` reports
`step_count == 2`. -/
theorem from_frames_single_step_underflow :
    NIVCSteps.from_frames 1 [⟨0, 1, Meta.Lurk⟩] (FoldingConfig.new_nivc ⟨[]⟩ 1) =
      Except.error Err.usizeUnderflow ∧
    (NIVCSteps.from_frames 4 ((List.range 7).map (fun k => ⟨k, k + 1, Meta.Lurk⟩))
        (FoldingConfig.new_nivc ⟨[]⟩ 4)).map NIVCSteps.num_steps = Except.ok 2 ∧
    SuperNovaProver.prove 4 (fun s => Except.ok [s])
        ((List.range 7).map (fun k => ⟨k, k + 1, Meta.Lurk⟩)) ⟨[]⟩ ⟨99, fun _ => true⟩ =
      Except.ok (Proof.Recursive 99, [0], [7], 2) :=
  ⟨rfl, rfl, rfl⟩

/-- C9: whenever segmentation yields exactly one step, the successor-linking
pass of `from_frames` evaluates `penultimate - 1` with `penultimate == 0` on
an unsigned integer, so `from_frames` aborts instead of returning the
one-step sequence. -/
theorem from_frames_one_step_aborts (count : Nat) (frames : List Frame)
    (fc : FoldingConfig) (f0 : Frame)
    (h0 : frames.head? = some f0)
    (h1 : (NIVCSteps.segment count f0.meta frames fc).length = 1) :
    NIVCSteps.from_frames count frames fc = Except.error Err.usizeUnderflow := by
  unfold NIVCSteps.from_frames
  rw [h0]
  have hne : (NIVCSteps.segment count f0.meta frames fc).isEmpty = false := by
    cases hs : NIVCSteps.segment count f0.meta frames fc with
    | nil => rw [hs] at h1; simp at h1
    | cons a l => rfl
  simp [hne, h1]

/-- Witness for C9 at a concrete input: one primary frame with batch cap 3
segments into one step and `from_frames` aborts. -/
theorem from_frames_one_step_aborts_witness :
    NIVCSteps.from_frames 3 [⟨0, 1, Meta.Lurk⟩] (FoldingConfig.new_nivc ⟨[]⟩ 3) =
      Except.error Err.usizeUnderflow :=
  from_frames_one_step_aborts 3 [⟨0, 1, Meta.Lurk⟩] (FoldingConfig.new_nivc ⟨[]⟩ 3)
    ⟨0, 1, Meta.Lurk⟩ rfl rfl

/-- C6: whenever `NIVCStep::synthesize` succeeds, the returned next program
counter is the circuit index of the linked successor when the forward
reference is populated, and 0 (the primary lane's index) when the step has
no linked successor. -/
theorem synthesize_next_pc (extSynth : MultiFrame → List Nat → Except Err (List Nat))
    (s : NIVCStep) (pc : Option Nat) (z : List Nat) (npc : Option Nat) (out : List Nat)
    (h : NIVCStep.synthesize extSynth s pc z = Except.ok (npc, out)) :
    (s.next = none → npc = some 0) ∧
    (∀ mf k, s.next = some mf → mf.circuit_index = Except.ok k → npc = some k) := by
  unfold NIVCStep.synthesize at h
  cases hext : extSynth s.multiframe z with
  | error e => rw [hext] at h; simp [Bind.bind, Except.bind] at h
  | ok output =>
    rw [hext] at h
    constructor
    · intro hn
      rw [hn] at h
      simp [Bind.bind, Except.bind, Pure.pure, Except.pure] at h
      exact h.1.symm
    · intro mf k hn hk
      rw [hn] at h
      simp only [Bind.bind, Except.bind] at h
      rw [hk] at h
      simp [Pure.pure, Except.pure] at h
      exact h.1.symm

/-- Witness for C6 at a concrete step: its forward reference is a
coprocessor-lane instance of circuit index 1, and a successful synthesis
reports next program counter 1. -/
theorem synthesize_next_pc_witness :
    NIVCStep.synthesize (fun _ _ => Except.ok []) stepW none [] =
      Except.ok (some 1, ([] : List Nat)) ∧
    (some 1 : Option Nat) = some 1 :=
  ⟨rfl,
    (synthesize_next_pc (fun _ _ => Except.ok []) stepW none [] (some 1) [] rfl).2
      (MultiFrame.blank fcW (Meta.Coprocessor 7)) 1 rfl rfl⟩

/-- Every chunk produced by `chunkGo` with sufficient fuel and a positive
cap is non-empty and no longer than the cap. -/
theorem chunkGo_length_le (c : Nat) (hc : 1 ≤ c) :
    ∀ (fuel : Nat) (l : List Frame), l.length ≤ fuel →
      ∀ ch ∈ chunkGo c fuel l, 1 ≤ ch.length ∧ ch.length ≤ c := by
  intro fuel
  induction fuel with
  | zero =>
    intro l hl ch hch
    have hnil : l = [] := List.eq_nil_of_length_eq_zero (Nat.le_zero.mp hl)
    subst hnil
    simp [chunkGo] at hch
  | succ n ih =>
    intro l hl ch hch
    cases l with
    | nil => simp [chunkGo] at hch
    | cons x xs =>
      simp only [chunkGo, List.mem_cons] at hch
      rcases hch with h | h
      · subst h
        refine ⟨by simp, ?_⟩
        simp only [List.length_cons, List.length_take]
        omega
      · refine ih (xs.drop (c - 1)) ?_ ch h
        have hd : (xs.drop (c - 1)).length = xs.length - (c - 1) := List.length_drop _ _
        simp only [List.length_cons] at hl
        omega

/-- C5: at every lane-tag change during segmentation: when the closing batch
is primary-lane the triggering frame is appended to it before compilation,
the new pending batch begins with that same triggering frame (so the
boundary frame appears in both batches), and the compiled steps cover chunks
of size at most the batch cap for a primary-lane batch and exactly 1 for an
auxiliary-lane batch. -/
theorem segBody_lane_change (count : Nat) (hc : 1 ≤ count) (fc : FoldingConfig)
    (steps : List NIVCStep) (last_meta : Meta) (cf : List Frame) (frame : Frame)
    (h : ¬ frame.meta = last_meta) :
    segBody count fc (steps, last_meta, cf) frame =
      (steps ++ (MultiFrame.from_frames (if last_meta = Meta.Lurk then count else 1)
          (if last_meta = Meta.Lurk then cf ++ [frame] else cf) fc).map NIVCStep.new,
        frame.meta, [frame]) ∧
    (∀ s ∈ (MultiFrame.from_frames (if last_meta = Meta.Lurk then count else 1)
          (if last_meta = Meta.Lurk then cf ++ [frame] else cf) fc).map NIVCStep.new,
        1 ≤ s.multiframe.frames.length ∧
        s.multiframe.frames.length ≤ (if last_meta = Meta.Lurk then count else 1)) := by
  constructor
  · simp [segBody, h]
  · intro s hs
    simp only [MultiFrame.from_frames, List.mem_map] at hs
    obtain ⟨mf, hmf, rfl⟩ := hs
    obtain ⟨ch, hch, rfl⟩ := hmf
    have hcap : 1 ≤ (if last_meta = Meta.Lurk then count else 1) := by
      split
      · exact hc
      · exact Nat.le_refl 1
    have hlen := chunkGo_length_le _ hcap _ _ (Nat.le_refl _) ch hch
    simpa [NIVCStep.new, chunkList] using hlen

/-- Witness for C5 at a concrete lane change: a pending primary-lane batch of
one frame, closed by an auxiliary triggering frame with batch cap 2. -/
theorem segBody_lane_change_witness :
    segBody 2 fcW ([], Meta.Lurk, [⟨0, 1, Meta.Lurk⟩]) ⟨1, 2, Meta.Coprocessor 7⟩ =
      ([] ++ (MultiFrame.from_frames (if Meta.Lurk = Meta.Lurk then 2 else 1)
          (if Meta.Lurk = Meta.Lurk then [⟨0, 1, Meta.Lurk⟩] ++ [⟨1, 2, Meta.Coprocessor 7⟩]
           else [⟨0, 1, Meta.Lurk⟩]) fcW).map NIVCStep.new,
        (Frame.mk 1 2 (Meta.Coprocessor 7)).meta, [⟨1, 2, Meta.Coprocessor 7⟩]) :=
  (segBody_lane_change 2 (by decide) fcW [] Meta.Lurk [⟨0, 1, Meta.Lurk⟩]
    ⟨1, 2, Meta.Coprocessor 7⟩ (by decide)).1

/-- C8: two `prove` invocations over identical frames, store encoding and
configuration — differing only in the external scheme's per-run behavior —
that both succeed return identical `z0` (the first frame's input state
encoding), identical `zi` (the last frame's output state encoding), and
identical step count. -/
theorem prove_metadata_deterministic (rc : Nat)
    (toVector : Nat → Except Nat (List Nat)) (frames : List Frame) (lang : Lang)
    (o1 o2 : SchemeOracle) (p1 p2 : Proof) (z01 zi1 z02 zi2 : List Nat) (n1 n2 : Nat)
    (h1 : SuperNovaProver.prove rc toVector frames lang o1 =
      Except.ok (p1, z01, zi1, n1))
    (h2 : SuperNovaProver.prove rc toVector frames lang o2 =
      Except.ok (p2, z02, zi2, n2)) :
    z01 = z02 ∧ zi1 = zi2 ∧ n1 = n2 ∧
    (∃ f0, frames.head? = some f0 ∧ toVector f0.input = Except.ok z01) ∧
    (∃ fl, frames.getLast? = some fl ∧ toVector fl.output = Except.ok zi1) := by
  unfold SuperNovaProver.prove at h1 h2
  cases hh : frames.head? with
  | none =>
    rw [hh] at h1
    simp [Bind.bind, Except.bind] at h1
  | some f0 =>
    rw [hh] at h1 h2
    simp only [Bind.bind, Except.bind] at h1 h2
    cases htv : toVector f0.input with
    | error e =>
      rw [htv] at h1
      simp [Except.mapError] at h1
    | ok z0v =>
      rw [htv] at h1 h2
      simp only [Except.mapError] at h1 h2
      cases hl : frames.getLast? with
      | none =>
        rw [hl] at h1
        simp at h1
      | some fl =>
        rw [hl] at h1 h2
        simp only [] at h1 h2
        cases htv2 : toVector fl.output with
        | error e =>
          rw [htv2] at h1
          simp [Except.mapError] at h1
        | ok ziv =>
          rw [htv2] at h1 h2
          simp only [Except.mapError] at h1 h2
          cases hff : NIVCSteps.from_frames rc frames (FoldingConfig.new_nivc lang rc) with
          | error e =>
            rw [hff] at h1
            simp at h1
          | ok nsteps =>
            rw [hff] at h1 h2
            simp only [] at h1 h2
            cases hp1 : Proof.prove_recursively lang rc nsteps o1 with
            | error e =>
              rw [hp1] at h1
              simp at h1
            | ok pr1 =>
              cases hp2 : Proof.prove_recursively lang rc nsteps o2 with
              | error e =>
                rw [hp2] at h2
                simp at h2
              | ok pr2 =>
                rw [hp1] at h1
                rw [hp2] at h2
                simp only [Pure.pure, Except.pure, Except.ok.injEq, Prod.mk.injEq] at h1 h2
                obtain ⟨-, e1, e2, e3⟩ := h1
                obtain ⟨-, f1, f2, f3⟩ := h2
                subst e1; subst e2; subst e3
                subst f1; subst f2; subst f3
                exact ⟨rfl, rfl, rfl, ⟨f0, rfl, htv⟩, ⟨fl, rfl, htv2⟩⟩

/-- Witness for C8: the same two-frame primary trace proven with two scheme
runs whose accumulator payloads differ; both report the same `z0`, `zi` and
step count. -/
theorem prove_metadata_deterministic_witness :
    SuperNovaProver.prove 1 (fun s => Except.ok [s])
        [⟨0, 1, Meta.Lurk⟩, ⟨1, 2, Meta.Lurk⟩] ⟨[]⟩ ⟨11, fun _ => true⟩ =
      Except.ok (Proof.Recursive 11, [0], [2], 2) ∧
    SuperNovaProver.prove 1 (fun s => Except.ok [s])
        [⟨0, 1, Meta.Lurk⟩, ⟨1, 2, Meta.Lurk⟩] ⟨[]⟩ ⟨22, fun _ => true⟩ =
      Except.ok (Proof.Recursive 22, [0], [2], 2) ∧
    ([0] : List Nat) = [0] ∧ ([2] : List Nat) = [2] ∧ (2 : Nat) = 2 :=
  ⟨rfl, rfl,
    (prove_metadata_deterministic 1 (fun s => Except.ok [s])
      [⟨0, 1, Meta.Lurk⟩, ⟨1, 2, Meta.Lurk⟩] ⟨[]⟩ ⟨11, fun _ => true⟩ ⟨22, fun _ => true⟩
      (Proof.Recursive 11) (Proof.Recursive 22) [0] [2] [0] [2] 2 2 rfl rfl).1,
    (prove_metadata_deterministic 1 (fun s => Except.ok [s])
      [⟨0, 1, Meta.Lurk⟩, ⟨1, 2, Meta.Lurk⟩] ⟨[]⟩ ⟨11, fun _ => true⟩ ⟨22, fun _ => true⟩
      (Proof.Recursive 11) (Proof.Recursive 22) [0] [2] [0] [2] 2 2 rfl rfl).2.1,
    (prove_metadata_deterministic 1 (fun s => Except.ok [s])
      [⟨0, 1, Meta.Lurk⟩, ⟨1, 2, Meta.Lurk⟩] ⟨[]⟩ ⟨11, fun _ => true⟩ ⟨22, fun _ => true⟩
      (Proof.Recursive 11) (Proof.Recursive 22) [0] [2] [0] [2] 2 2 rfl rfl).2.2.1⟩

/-- `segBody` preserves the invariant that every emitted step has no forward
reference yet (`NIVCStep::new` leaves `next` unset). -/
theorem segBody_next_none (count : Nat) (fc : FoldingConfig)
    (acc : List NIVCStep × Meta × List Frame) (frame : Frame)
    (hacc : ∀ s ∈ acc.1, s.next = none) :
    ∀ s ∈ (segBody count fc acc frame).1, s.next = none := by
  intro s hs
  simp only [segBody] at hs
  split at hs
  · exact hacc s hs
  · rcases List.mem_append.mp hs with h1 | h2
    · exact hacc s h1
    · obtain ⟨mf, -, rfl⟩ := List.mem_map.mp h2
      rfl

/-- Every step produced by the segmentation phase has no forward reference. -/
theorem segment_next_none (count : Nat) (firstMeta : Meta) (frames : List Frame)
    (fc : FoldingConfig) :
    ∀ s ∈ NIVCSteps.segment count firstMeta frames fc, s.next = none := by
  have hfold : ∀ (l : List Frame) (acc : List NIVCStep × Meta × List Frame),
      (∀ s ∈ acc.1, s.next = none) →
      ∀ s ∈ (l.foldl (segBody count fc) acc).1, s.next = none := by
    intro l
    induction l with
    | nil =>
      intro acc hacc
      simpa using hacc
    | cons f fs ih =>
      intro acc hacc
      simp only [List.foldl_cons]
      exact ih _ (segBody_next_none count fc acc f hacc)
  intro s hs
  simp only [NIVCSteps.segment] at hs
  split at hs
  · exact hfold frames ([], firstMeta, []) (by simp) s hs
  · rcases List.mem_append.mp hs with h1 | h2
    · exact hfold frames ([], firstMeta, []) (by simp) s h1
    · obtain ⟨mf, -, rfl⟩ := List.mem_map.mp h2
      rfl

/-- The linking pass does not change the number of steps. -/
theorem linkGo_length (all : List NIVCStep) (bound : Nat) :
    ∀ (l : List NIVCStep) (i : Nat), (linkGo all bound i l).length = l.length := by
  intro l
  induction l with
  | nil => intro i; rfl
  | cons s rest ih =>
    intro i
    simp [linkGo, ih]

/-- Element-wise characterization of the linking pass: position `j` of the
suffix starting at global index `i` gets its forward reference set exactly
when its global index is below the bound. -/
theorem linkGo_get? (all : List NIVCStep) (bound : Nat) :
    ∀ (l : List NIVCStep) (i j : Nat),
      (linkGo all bound i l).get? j =
        (l.get? j).map (fun s =>
          if i + j < bound then
            match all.get? (i + j + 1) with
            | some s2 => { s with next := some s2.multiframe }
            | none => s
          else s) := by
  intro l
  induction l with
  | nil => intro i j; simp [linkGo]
  | cons s rest ih =>
    intro i j
    cases j with
    | zero => simp [linkGo]
    | succ j =>
      simp only [linkGo, List.get?]
      rw [ih (i + 1) j]
      have harith : i + 1 + j = i + (j + 1) := by omega
      rw [harith]

/-- C10: whenever `from_frames` returns a sequence of `n >= 2` steps, the
forward-reference pass has populated `steps[i].next` with step `i+1`'s
circuit instance exactly for `i` strictly below `n - 2`, leaving both the
last and the second-to-last step's forward reference unset, so the
second-to-last step's synthesis reports next program counter 0 even though
it has a successor. -/
theorem from_frames_forward_links (count : Nat) (frames : List Frame)
    (fc : FoldingConfig) (out : NIVCSteps)
    (h : NIVCSteps.from_frames count frames fc = Except.ok out)
    (hn : 2 ≤ out.steps.length) :
    (∀ i s s2, out.steps.get? i = some s → out.steps.get? (i + 1) = some s2 →
      i + 2 < out.steps.length → s.next = some s2.multiframe) ∧
    (∀ s, out.steps.get? (out.steps.length - 2) = some s → s.next = none) ∧
    (∀ s, out.steps.get? (out.steps.length - 1) = some s → s.next = none) ∧
    (∀ extSynth pc z r s, out.steps.get? (out.steps.length - 2) = some s →
      NIVCStep.synthesize extSynth s pc z = Except.ok r → r.1 = some 0) := by
  unfold NIVCSteps.from_frames at h
  cases hh : frames.head? with
  | none =>
    rw [hh] at h
    exact Except.noConfusion h
  | some f0 =>
    rw [hh] at h
    simp only [] at h
    by_cases he : (NIVCSteps.segment count f0.meta frames fc).isEmpty
    · rw [if_pos he] at h
      obtain rfl := (Except.ok.inj h).symm
      rw [List.isEmpty_iff] at he
      rw [he] at hn
      exact absurd hn (by simp)
    · rw [if_neg he] at h
      by_cases hz : (NIVCSteps.segment count f0.meta frames fc).length - 1 = 0
      · rw [if_pos hz] at h
        exact Except.noConfusion h
      · rw [if_neg hz] at h
        obtain rfl := (Except.ok.inj h).symm
        set steps0 := NIVCSteps.segment count f0.meta frames fc with hsteps0
        have hlen : (linkGo steps0 (steps0.length - 1 - 1) 0 steps0).length =
            steps0.length := linkGo_length steps0 _ steps0 0
        have hnone : ∀ i s, ¬ i < steps0.length - 1 - 1 →
            (linkGo steps0 (steps0.length - 1 - 1) 0 steps0).get? i = some s →
            s.next = none := by
          intro i s hib hg
          rw [linkGo_get? steps0 _ steps0 0 i] at hg
          obtain ⟨s0, hs0, hfs⟩ := Option.map_eq_some'.mp hg
          rw [Nat.zero_add] at hfs
          rw [if_neg hib] at hfs
          subst hfs
          exact segment_next_none count f0.meta frames fc s0 (List.get?_mem hs0)
        refine ⟨?_, ?_, ?_, ?_⟩
        · intro i s s2 hgi hgi1 hilt
          rw [hlen] at hilt
          rw [linkGo_get? steps0 _ steps0 0 i] at hgi
          obtain ⟨s0, hs0, hfs⟩ := Option.map_eq_some'.mp hgi
          rw [Nat.zero_add] at hfs
          have hib : i < steps0.length - 1 - 1 := by omega
          rw [if_pos hib] at hfs
          rw [linkGo_get? steps0 _ steps0 0 (i + 1)] at hgi1
          obtain ⟨s1, hs1, hfs1⟩ := Option.map_eq_some'.mp hgi1
          rw [Nat.zero_add] at hfs1
          rw [hs1] at hfs
          subst hfs
          have hmf : s2.multiframe = s1.multiframe := by
            by_cases hib1 : i + 1 < steps0.length - 1 - 1
            · rw [if_pos hib1] at hfs1
              cases hget : steps0.get? (i + 1 + 1) with
              | none => rw [hget] at hfs1; subst hfs1; rfl
              | some s3 => rw [hget] at hfs1; subst hfs1; rfl
            · rw [if_neg hib1] at hfs1
              subst hfs1
              rfl
          rw [hmf]
        · intro s hg
          rw [hlen] at hg
          refine hnone _ s ?_ hg
          omega
        · intro s hg
          rw [hlen] at hg
          refine hnone _ s ?_ hg
          omega
        · intro extSynth pc z r s hg hsyn
          rw [hlen] at hg
          have hsn : s.next = none := hnone _ s (by omega) hg
          unfold NIVCStep.synthesize at hsyn
          cases hext : extSynth s.multiframe z with
          | error e =>
            rw [hext] at hsyn
            simp [Bind.bind, Except.bind] at hsyn
          | ok output =>
            rw [hext, hsn] at hsyn
            simp only [Bind.bind, Except.bind, Pure.pure, Except.pure,
              Except.ok.injEq] at hsyn
            rw [← hsyn]

/-- Witness for C10 at a concrete trace of three primary frames with batch
cap 1: three steps, only step 0 linked to step 1's circuit instance, steps 1
and 2 unlinked, and step 1 (which has a successor) synthesizing next program
counter 0. -/
theorem from_frames_forward_links_witness :
    NIVCSteps.from_frames 1 [⟨0, 1, Meta.Lurk⟩, ⟨1, 2, Meta.Lurk⟩, ⟨2, 3, Meta.Lurk⟩]
        (FoldingConfig.new_nivc ⟨[]⟩ 1) = Except.ok outW ∧
    (NIVCStep.mk (mfW 0) (some (mfW 1))).next = some (NIVCStep.mk (mfW 1) none).multiframe ∧
    (NIVCStep.mk (mfW 1) none).next = none ∧
    (NIVCStep.mk (mfW 2) none).next = none ∧
    ((some 0 : Option Nat), ([] : List Nat)).1 = some 0 := by
  have h := from_frames_forward_links 1
    [⟨0, 1, Meta.Lurk⟩, ⟨1, 2, Meta.Lurk⟩, ⟨2, 3, Meta.Lurk⟩]
    (FoldingConfig.new_nivc ⟨[]⟩ 1) outW rfl (by decide)
  exact ⟨rfl, h.1 0 (NIVCStep.mk (mfW 0) (some (mfW 1))) (NIVCStep.mk (mfW 1) none) rfl rfl
      (by decide),
    h.2.1 (NIVCStep.mk (mfW 1) none) rfl,
    h.2.2.1 (NIVCStep.mk (mfW 2) none) rfl,
    h.2.2.2 (fun _ _ => Except.ok []) none [] (some 0, []) (NIVCStep.mk (mfW 1) none) rfl rfl⟩

end Lurk
